/-
Verification of the qbo-attachment-migration demo pipeline.

Shallow embedding of the repository's Python sources:
  * `src/config.py`            — `normalize_legacy_id`
  * `src/mapping_verifier.py`  — mapping load (dict, last write wins) and the join
  * `src/qbo_attach_demo.py`   — `_load_prior_successes` and the reconciler loop

Python strings handled by the normalizer are modelled as `List Char`
(`str.strip` → `pyStrip`, `str.upper` → `pyUpper` via `Char.toUpper`, which
matches CPython's `str.upper` on the ASCII identifiers this pipeline uses).
CSV rows are modelled as structures whose fields are the row's columns, with
`row.get(k, "")` read as plain field access (absent columns are `""`).
The external upload call (`fake_qbo_api.attach_file`) is nondeterministic
(randomness, filesystem), so the reconciler is parametrised by an oracle
`upload : Nat → Resp` giving the response to the i-th invocation, and by
`tsOf : Nat → String` giving the timestamp written for the i-th candidate.
-/
import Mathlib

namespace QboDemo

/-! ## `src/config.py` : normalize_legacy_id -/

/-- Model of Python `str.strip()`: drop whitespace from both ends. -/
def pyStrip (s : List Char) : List Char :=
  ((s.dropWhile Char.isWhitespace).reverse.dropWhile Char.isWhitespace).reverse

/-- Model of Python `str.upper()` on the ASCII data this repo uses. -/
def pyUpper (s : List Char) : List Char :=
  s.map Char.toUpper

/-- Embedding of `config.normalize_legacy_id`.  `none` models Python `None`.
    `raw.startswith("80")` is modelled as `raw.take 2 = ['8', '0']`. -/
def normalize_legacy_id (raw_id : Option (List Char)) : List Char :=
  match raw_id with
  | none => []
  | some s =>
    let raw := pyStrip s
    let raw := if raw.take 2 = ['8', '0'] then raw.drop 2 else raw
    pyUpper raw

/-- The §4.1 contract of the spec, written from the spec's words, to be
    compared with `normalize_legacy_id` (which is written from the source):
    null → empty; trim surrounding whitespace; if the trimmed value starts
    with the literal "80" drop exactly those two characters; upper-case the
    remainder. -/
def normalizeSpec (raw_id : Option (List Char)) : List Char :=
  match raw_id with
  | none => []
  | some s =>
    let trimmed := pyStrip s
    pyUpper (if trimmed.take 2 = ['8', '0'] then trimmed.drop 2 else trimmed)

theorem char_toNat_ofNat_upper (m : Nat) (h1 : 65 ≤ m) (h2 : m ≤ 90) :
    (Char.ofNat m).toNat = m := by
  interval_cases m <;> decide

theorem char_toUpper_toUpper (c : Char) : c.toUpper.toUpper = c.toUpper := by
  unfold Char.toUpper
  by_cases h : c.toNat ≥ 97 ∧ c.toNat ≤ 122
  · rw [if_pos h]
    have ht : (Char.ofNat (c.toNat - 32)).toNat = c.toNat - 32 :=
      char_toNat_ofNat_upper _ (by omega) (by omega)
    rw [if_neg]
    rw [ht]
    omega
  · rw [if_neg h, if_neg h]

theorem pyUpper_pyUpper (s : List Char) : pyUpper (pyUpper s) = pyUpper s := by
  simp [pyUpper, Function.comp, char_toUpper_toUpper]

/-! ## `src/mapping_verifier.py` -/

/-- A row of `mapping_export.csv` (the columns `_load_mapping` and `main` read). -/
structure MRow where
  legacy_txnid_norm : String
  legacy_entity_type : String
  qbo_entity_type : String
  qbo_entity_id : String
deriving DecidableEq, Repr

/-- A row of `attachments_inventory.csv` (the attachment columns). -/
structure InvRow where
  legacy_txnid_norm : String
  legacy_entity_type : String
  raw_legacy_id : String
  file_name : String
  file_path : String
deriving DecidableEq, Repr

/-- A row of `mapping_verification_log.csv` (a VerifiedRecord). -/
structure VRow where
  legacy_txnid_norm : String
  legacy_entity_type : String
  raw_legacy_id : String
  file_name : String
  file_path : String
  qbo_entity_type : String
  qbo_entity_id : String
  status : String
  reason : String
deriving DecidableEq, Repr

/-- A row of `mapping_verification_skips.csv`. -/
structure SkipRow where
  legacy_txnid_norm : String
  legacy_entity_type : String
  file_name : String
  reason : String
deriving DecidableEq, Repr

def mrowKey (m : MRow) : String × String :=
  (m.legacy_txnid_norm, m.legacy_entity_type)

/-- Embedding of `_load_mapping` followed by `mapping.get(key)`: the dict is
    built by successive assignment `mapping[key] = row`, so a lookup returns
    the LAST row of the file with that key (last write wins). -/
def mappingLookup (ms : List MRow) (k : String × String) : Option MRow :=
  ms.reverse.find? (fun m => mrowKey m = k)

/-- The body of the verifier loop for one inventory row. -/
def verifyRow (ms : List MRow) (row : InvRow) : VRow :=
  match mappingLookup ms (row.legacy_txnid_norm, row.legacy_entity_type) with
  | some m =>
    { legacy_txnid_norm := row.legacy_txnid_norm
      legacy_entity_type := row.legacy_entity_type
      raw_legacy_id := row.raw_legacy_id
      file_name := row.file_name
      file_path := row.file_path
      qbo_entity_type := m.qbo_entity_type
      qbo_entity_id := m.qbo_entity_id
      status := "ok"
      reason := "" }
  | none =>
    { legacy_txnid_norm := row.legacy_txnid_norm
      legacy_entity_type := row.legacy_entity_type
      raw_legacy_id := row.raw_legacy_id
      file_name := row.file_name
      file_path := row.file_path
      qbo_entity_type := ""
      qbo_entity_id := ""
      status := "missing_mapping"
      reason := "no mapping for (legacy_txnid_norm, legacy_entity_type)" }

/-- What `mapping_verifier.main` leaves on disk and counts. -/
structure VerifierResult where
  log : List VRow
  skips : List SkipRow
  okCount : Nat
  missingCount : Nat
deriving DecidableEq, Repr

/-- Embedding of `mapping_verifier.main`.  Both output files are opened with
    mode `"w"`, so whatever `priorLog` / `priorSkips` held before the run is
    discarded; the loop never writes to the skips file, and the final block
    writes only its header, so `skips` is always empty. -/
def verifierRun (ms : List MRow) (inv : List InvRow)
    (priorLog : List VRow) (priorSkips : List SkipRow) : VerifierResult :=
  { log := inv.map (verifyRow ms)
    skips := []
    okCount := (inv.map (verifyRow ms)).countP (fun v => v.status == "ok")
    missingCount := (inv.map (verifyRow ms)).countP (fun v => v.status == "missing_mapping") }

/-! ## `src/qbo_attach_demo.py` -/

/-- The response shape of `fake_qbo_api.attach_file` (a `FakeQboResponse`). -/
structure Resp where
  status_code : Int
  intuit_tid : Option String
  error : Option String
  duration_ms : Int
deriving DecidableEq, Repr

/-- A row of `qbo_attach_runlog.csv` (an UploadAttemptRecord); the same
    shape is used for `qbo_attach_errors.csv` and `qbo_attach_dups.csv`. -/
structure ARecord where
  ts : String
  legacy_txnid_norm : String
  legacy_entity_type : String
  raw_legacy_id : String
  qbo_entity_type : String
  qbo_entity_id : String
  file_name : String
  file_path : String
  status_code : String
  error : String
  intuit_tid : String
  outcome : String
deriving DecidableEq, Repr

/-- The idempotency key of a ledger row: `(qbo_entity_id, file_name)`. -/
def successKey (r : ARecord) : String × String :=
  (r.qbo_entity_id, r.file_name)

def addSuccess (s : Finset (String × String)) (r : ARecord) : Finset (String × String) :=
  if r.outcome = "success" then insert (successKey r) s else s

/-- Embedding of `_load_prior_successes` on an existing run log. -/
def loadPriorSuccesses (ledger : List ARecord) : Finset (String × String) :=
  ledger.foldl addSuccess ∅

/-- The record written when a candidate's key is already in `prior_successes`. -/
def skipRecord (ts : String) (row : VRow) : ARecord :=
  { ts := ts
    legacy_txnid_norm := row.legacy_txnid_norm
    legacy_entity_type := row.legacy_entity_type
    raw_legacy_id := row.raw_legacy_id
    qbo_entity_type := row.qbo_entity_type
    qbo_entity_id := row.qbo_entity_id
    file_name := row.file_name
    file_path := row.file_path
    status_code := ""
    error := ""
    intuit_tid := ""
    outcome := "skipped_already_uploaded" }

/-- The outcome the `if/elif/else` on `resp.status_code` assigns. -/
def outcomeOf (status_code : Int) : String :=
  if status_code = 200 then "success"
  else if status_code = 404 then "file_missing"
  else "error"

/-- The record written after an actual `attach_file` call. -/
def attemptRecord (ts : String) (row : VRow) (resp : Resp) : ARecord :=
  { ts := ts
    legacy_txnid_norm := row.legacy_txnid_norm
    legacy_entity_type := row.legacy_entity_type
    raw_legacy_id := row.raw_legacy_id
    qbo_entity_type := row.qbo_entity_type
    qbo_entity_id := row.qbo_entity_id
    file_name := row.file_name
    file_path := row.file_path
    status_code := toString resp.status_code
    error := resp.error.getD ""
    intuit_tid := resp.intuit_tid.getD ""
    outcome := outcomeOf resp.status_code }

/-- The mutable state of one reconciler run.  The three logs start with the
    files' pre-run contents (the writers append).  `calls` records every
    invocation of the external upload operation: the candidate index it
    served and the arguments `(qbo_entity_type, qbo_entity_id, file_path)`
    passed to `attach_file`. -/
structure RunState where
  prior : Finset (String × String)
  runLog : List ARecord
  errLog : List ARecord
  dupLog : List ARecord
  total : Nat
  uploaded : Nat
  skipped : Nat
  failed : Nat
  calls : List (Nat × String × String × String)

/-- One iteration of the reconciler loop over a `mapping_verification_log`
    row.  Rows with `status ≠ "ok"` are passed over.  `upload i` is the
    response `attach_file` returns to the call made for candidate number `i`;
    `tsOf i` is the timestamp written for candidate `i`. -/
def stepRow (upload : Nat → Resp) (tsOf : Nat → String) (s : RunState) (row : VRow) : RunState :=
  if row.status = "ok" then
    let i := s.total
    let key := (row.qbo_entity_id, row.file_name)
    if key ∈ s.prior then
      let record := skipRecord (tsOf i) row
      { s with runLog := s.runLog ++ [record]
               dupLog := s.dupLog ++ [record]
               total := s.total + 1
               skipped := s.skipped + 1 }
    else
      let resp := upload i
      let record := attemptRecord (tsOf i) row resp
      if resp.status_code = 200 then
        { s with runLog := s.runLog ++ [record]
                 prior := insert key s.prior
                 calls := s.calls ++ [(i, row.qbo_entity_type, row.qbo_entity_id, row.file_path)]
                 total := s.total + 1
                 uploaded := s.uploaded + 1 }
      else
        { s with runLog := s.runLog ++ [record]
                 errLog := s.errLog ++ [record]
                 calls := s.calls ++ [(i, row.qbo_entity_type, row.qbo_entity_id, row.file_path)]
                 total := s.total + 1
                 failed := s.failed + 1 }
  else s

/-- State at the start of a run: the idempotency set is loaded from the run
    log, and each writer is positioned at the end of its file's current
    contents (append mode). -/
def initState (ledger errFile dupFile : List ARecord) : RunState :=
  { prior := loadPriorSuccesses ledger
    runLog := ledger
    errLog := errFile
    dupLog := dupFile
    total := 0
    uploaded := 0
    skipped := 0
    failed := 0
    calls := [] }

/-- The reconciler loop of `qbo_attach_demo.main` over the verified rows. -/
def runReconciler (upload : Nat → Resp) (tsOf : Nat → String)
    (ledger errFile dupFile : List ARecord) (rows : List VRow) : RunState :=
  rows.foldl (stepRow upload tsOf) (initState ledger errFile dupFile)

/-- Embedding of `qbo_attach_demo.main`.  `none` for a file argument means
    the file does not exist.  A missing `mapping_verification_log.csv` raises
    `RuntimeError` before any writer is opened; a missing run log is read as
    an empty ledger by `_load_prior_successes`. -/
def mainReconciler (upload : Nat → Resp) (tsOf : Nat → String)
    (verificationLog : Option (List VRow))
    (runlogFile errFile dupFile : Option (List ARecord)) : Except String RunState :=
  match verificationLog with
  | none => Except.error "mapping_verification_log.csv not found; run mapping_verifier first"
  | some rows =>
    Except.ok (runReconciler upload tsOf (runlogFile.getD []) (errFile.getD []) (dupFile.getD []) rows)

/-! ## Helper lemmas -/

theorem mem_foldl_addSuccess (L : List ARecord) (acc : Finset (String × String))
    (k : String × String) :
    k ∈ L.foldl addSuccess acc ↔
      k ∈ acc ∨ ∃ r ∈ L, r.outcome = "success" ∧ successKey r = k := by
  induction L generalizing acc with
  | nil => simp
  | cons r t ih =>
    rw [List.foldl_cons, ih]
    unfold addSuccess
    by_cases h : r.outcome = "success"
    · simp only [h, if_pos, List.mem_cons, Finset.mem_insert]
      constructor
      · rintro (⟨hk | hk⟩ | ⟨x, hx, hs, hkx⟩)
        · exact Or.inr ⟨r, Or.inl rfl, h, hk.symm⟩
        · exact Or.inl hk
        · exact Or.inr ⟨x, Or.inr hx, hs, hkx⟩
      · rintro (hk | ⟨x, hx | hx, hs, hkx⟩)
        · exact Or.inl (Or.inr hk)
        · exact Or.inl (Or.inl (hx ▸ hkx.symm))
        · exact Or.inr ⟨x, hx, hs, hkx⟩
    · rw [if_neg h]
      simp only [List.mem_cons]
      constructor
      · rintro (hk | ⟨x, hx, hs, hkx⟩)
        · exact Or.inl hk
        · exact Or.inr ⟨x, Or.inr hx, hs, hkx⟩
      · rintro (hk | ⟨x, hx | hx, hs, hkx⟩)
        · exact Or.inl hk
        · exact absurd (hx ▸ hs) h
        · exact Or.inr ⟨x, hx, hs, hkx⟩

theorem mem_loadPriorSuccesses (L : List ARecord) (k : String × String) :
    k ∈ loadPriorSuccesses L ↔
      ∃ r ∈ L, r.outcome = "success" ∧ successKey r = k := by
  rw [loadPriorSuccesses, mem_foldl_addSuccess]
  simp

/-- The predicate picking the errors-only rows out of this run's appends:
    records written by an actual upload attempt whose outcome is not
    `success`. -/
def errPick (r : ARecord) : Bool :=
  !(r.outcome == "skipped_already_uploaded") && !(r.outcome == "success")

theorem outcomeOf_ne (c : Int) (h : c ≠ 200) :
    outcomeOf c ≠ "success" ∧ outcomeOf c ≠ "skipped_already_uploaded" := by
  unfold outcomeOf
  rw [if_neg h]
  by_cases h4 : c = 404 <;> simp [h4]

/-- Everything the reconciler claims need about a mid-run state `s`, reached
    after processing the verified rows `pre` starting from files holding
    `ledger` / `errFile` / `dupFile`. -/
structure ReconInv (ledger errFile dupFile : List ARecord) (pre : List VRow)
    (s : RunState) : Prop where
  run_ext : ∃ app, s.runLog = ledger ++ app
  err_ext : ∃ app, s.errLog = errFile ++ app
  dup_ext : ∃ app, s.dupLog = dupFile ++ app
  run_count : s.runLog.length = ledger.length + s.total
  err_filter : s.errLog.drop errFile.length = (s.runLog.drop ledger.length).filter errPick
  prior_char : ∀ k, k ∈ s.prior ↔ k ∈ loadPriorSuccesses ledger ∨
    ∃ r ∈ s.runLog.drop ledger.length,
      r.outcome = "success" ∧ r.qbo_entity_id = k.1 ∧ r.file_name = k.2
  app_rows : ∀ r ∈ s.runLog.drop ledger.length, ∃ v ∈ pre, v.status = "ok" ∧
    r.qbo_entity_id = v.qbo_entity_id ∧ r.file_name = v.file_name
  calls_lt : ∀ c ∈ s.calls, c.1 < s.total
  calls_sorted : (s.calls.map Prod.fst).Pairwise (· < ·)

theorem reconInv_init (ledger e d : List ARecord) :
    ReconInv ledger e d [] (initState ledger e d) := by
  refine ⟨⟨[], by simp [initState]⟩, ⟨[], by simp [initState]⟩, ⟨[], by simp [initState]⟩,
    by simp [initState], by simp [initState], ?_, by simp [initState], by simp [initState],
    by simp [initState]⟩
  intro k
  simp [initState]

theorem exists_success_append (L : List ARecord) (a : ARecord)
    (ha : a.outcome ≠ "success") (Q : ARecord → Prop) :
    (∃ r ∈ L ++ [a], r.outcome = "success" ∧ Q r) ↔
      ∃ r ∈ L, r.outcome = "success" ∧ Q r := by
  simp only [List.mem_append, List.mem_singleton]
  constructor
  · rintro ⟨r, hr | rfl, hs, hq⟩
    · exact ⟨r, hr, hs, hq⟩
    · exact absurd hs ha
  · rintro ⟨r, hr, hs, hq⟩
    exact ⟨r, Or.inl hr, hs, hq⟩

theorem exists_success_append_success (L : List ARecord) (a : ARecord)
    (ha : a.outcome = "success") (Q : ARecord → Prop) :
    (∃ r ∈ L ++ [a], r.outcome = "success" ∧ Q r) ↔
      (∃ r ∈ L, r.outcome = "success" ∧ Q r) ∨ Q a := by
  simp only [List.mem_append, List.mem_singleton]
  constructor
  · rintro ⟨r, hr | rfl, hs, hq⟩
    · exact Or.inl ⟨r, hr, hs, hq⟩
    · exact Or.inr hq
  · rintro (⟨r, hr, hs, hq⟩ | hq)
    · exact ⟨r, Or.inl hr, hs, hq⟩
    · exact ⟨a, Or.inr rfl, ha, hq⟩

theorem pairwise_calls_append (calls : List (Nat × String × String × String))
    (n : Nat) (x : String × String × String)
    (hlt : ∀ c ∈ calls, c.1 < n)
    (hp : (calls.map Prod.fst).Pairwise (· < ·)) :
    (((calls ++ [(n, x)]).map Prod.fst).Pairwise (· < ·)) := by
  rw [List.map_append, List.pairwise_append]
  refine ⟨hp, by simp, ?_⟩
  intro a ha b hb
  simp only [List.map_cons, List.map_nil, List.mem_singleton] at hb
  subst hb
  obtain ⟨c, hc, rfl⟩ := List.mem_map.mp ha
  exact hlt c hc

theorem reconInv_step (upload : Nat → Resp) (tsOf : Nat → String)
    (ledger e d : List ARecord) (pre : List VRow) (s : RunState) (row : VRow)
    (inv : ReconInv ledger e d pre s) :
    ReconInv ledger e d (pre ++ [row]) (stepRow upload tsOf s row) := by
  obtain ⟨⟨rApp, hr⟩, ⟨eApp, he⟩, ⟨dApp, hd⟩, hcount, hfilter, hprior, happrows, hlt, hsorted⟩ := inv
  rw [hr, List.drop_left] at hfilter hprior happrows
  rw [he, List.drop_left] at hfilter
  have happrows' : ∀ r ∈ rApp, ∃ v ∈ pre ++ [row], v.status = "ok" ∧
      r.qbo_entity_id = v.qbo_entity_id ∧ r.file_name = v.file_name := by
    intro r hrr
    obtain ⟨v, hv, h1, h2, h3⟩ := happrows r hrr
    exact ⟨v, List.mem_append_left _ hv, h1, h2, h3⟩
  unfold stepRow
  by_cases hok : row.status = "ok"
  case neg =>
    rw [if_neg hok]
    refine ⟨⟨rApp, hr⟩, ⟨eApp, he⟩, ⟨dApp, hd⟩, hcount, ?_, ?_, ?_, hlt, hsorted⟩
    · rw [hr, List.drop_left, he, List.drop_left]; exact hfilter
    · rw [hr, List.drop_left]; exact hprior
    · rw [hr, List.drop_left]; exact happrows'
  case pos =>
    rw [if_pos hok]
    dsimp only
    by_cases hkey : (row.qbo_entity_id, row.file_name) ∈ s.prior
    case pos =>
      rw [if_pos hkey]
      set record := skipRecord (tsOf s.total) row with hrec
      have hrecout : record.outcome = "skipped_already_uploaded" := rfl
      refine ⟨⟨rApp ++ [record], by rw [hr, List.append_assoc]⟩, ⟨eApp, he⟩,
        ⟨dApp ++ [record], by rw [hd, List.append_assoc]⟩, ?_, ?_, ?_, ?_, ?_, hsorted⟩
      · simp only [List.length_append, hcount, List.length_cons, List.length_nil]
        omega
      · rw [hr, List.append_assoc, List.drop_left, he, List.drop_left,
          List.filter_append, hfilter]
        have : errPick record = false := by simp [errPick, hrecout]
        simp [this]
      · intro k
        rw [hprior k, hr, List.append_assoc, List.drop_left,
          exists_success_append _ _ (by rw [hrecout]; decide) _]
      · rw [hr, List.append_assoc, List.drop_left]
        intro r hrr
        rcases List.mem_append.mp hrr with hrr | hrr
        · exact happrows' r hrr
        · rw [List.mem_singleton.mp hrr]
          exact ⟨row, List.mem_append_right _ (List.mem_singleton.mpr rfl), hok, rfl, rfl⟩
      · intro c hc
        exact Nat.lt_succ_of_lt (hlt c hc)
    case neg =>
      rw [if_neg hkey]
      set resp := upload s.total with hresp
      set record := attemptRecord (tsOf s.total) row resp with hrec
      by_cases h200 : resp.status_code = 200
      case pos =>
        rw [if_pos h200]
        have hrecout : record.outcome = "success" := by
          simp [hrec, attemptRecord, outcomeOf, h200]
        refine ⟨⟨rApp ++ [record], by rw [hr, List.append_assoc]⟩, ⟨eApp, he⟩,
          ⟨dApp, hd⟩, ?_, ?_, ?_, ?_, ?_, ?_⟩
        · simp only [List.length_append, hcount, List.length_cons, List.length_nil]
          omega
        · rw [hr, List.append_assoc, List.drop_left, he, List.drop_left,
            List.filter_append, hfilter]
          have : errPick record = false := by simp [errPick, hrecout]
          simp [this]
        · intro k
          rw [Finset.mem_insert, hprior k, hr, List.append_assoc, List.drop_left,
            exists_success_append_success _ _ hrecout _]
          have hq : (record.qbo_entity_id = k.1 ∧ record.file_name = k.2) ↔
              k = (row.qbo_entity_id, row.file_name) := by
            constructor
            · rintro ⟨h1, h2⟩
              exact Prod.ext (h1.symm) (h2.symm)
            · rintro rfl
              exact ⟨rfl, rfl⟩
          rw [hq]
          constructor
          · rintro (h | h | h)
            · exact Or.inr (Or.inr h)
            · exact Or.inl h
            · exact Or.inr (Or.inl h)
          · rintro (h | h | h)
            · exact Or.inr (Or.inl h)
            · exact Or.inr (Or.inr h)
            · exact Or.inl h
        · rw [hr, List.append_assoc, List.drop_left]
          intro r hrr
          rcases List.mem_append.mp hrr with hrr | hrr
          · exact happrows' r hrr
          · rw [List.mem_singleton.mp hrr]
            exact ⟨row, List.mem_append_right _ (List.mem_singleton.mpr rfl), hok, rfl, rfl⟩
        · intro c hc
          rcases List.mem_append.mp hc with hc | hc
          · exact Nat.lt_succ_of_lt (hlt c hc)
          · rw [List.mem_singleton.mp hc]
            exact Nat.lt_succ_self _
        · exact pairwise_calls_append _ _ _ hlt hsorted
      case neg =>
        rw [if_neg h200]
        have hrecout : record.outcome = outcomeOf resp.status_code := rfl
        have hne := outcomeOf_ne resp.status_code h200
        refine ⟨⟨rApp ++ [record], by rw [hr, List.append_assoc]⟩,
          ⟨eApp ++ [record], by rw [he, List.append_assoc]⟩,
          ⟨dApp, hd⟩, ?_, ?_, ?_, ?_, ?_, ?_⟩
        · simp only [List.length_append, hcount, List.length_cons, List.length_nil]
          omega
        · rw [hr, List.append_assoc, List.drop_left, he, List.append_assoc, List.drop_left,
            List.filter_append, hfilter]
          have : errPick record = true := by
            rw [errPick, hrecout]
            simp only [Bool.and_eq_true, Bool.not_eq_true']
            exact ⟨by simpa using hne.2, by simpa using hne.1⟩
          simp [this]
        · intro k
          rw [hprior k, hr, List.append_assoc, List.drop_left,
            exists_success_append _ _ (by rw [hrecout]; exact hne.1) _]
        · rw [hr, List.append_assoc, List.drop_left]
          intro r hrr
          rcases List.mem_append.mp hrr with hrr | hrr
          · exact happrows' r hrr
          · rw [List.mem_singleton.mp hrr]
            exact ⟨row, List.mem_append_right _ (List.mem_singleton.mpr rfl), hok, rfl, rfl⟩
        · intro c hc
          rcases List.mem_append.mp hc with hc | hc
          · exact Nat.lt_succ_of_lt (hlt c hc)
          · rw [List.mem_singleton.mp hc]
            exact Nat.lt_succ_self _
        · exact pairwise_calls_append _ _ _ hlt hsorted

theorem reconInv_run_aux (upload : Nat → Resp) (tsOf : Nat → String)
    (ledger e d : List ARecord) :
    ∀ (rows pre : List VRow) (s : RunState), ReconInv ledger e d pre s →
      ReconInv ledger e d (pre ++ rows) (rows.foldl (stepRow upload tsOf) s) := by
  intro rows
  induction rows with
  | nil =>
    intro pre s h
    simpa using h
  | cons r t ih =>
    intro pre s h
    rw [List.foldl_cons]
    have h2 := ih (pre ++ [r]) _ (reconInv_step upload tsOf ledger e d pre s r h)
    simpa using h2

theorem reconInv_run (upload : Nat → Resp) (tsOf : Nat → String)
    (ledger e d : List ARecord) (rows : List VRow) :
    ReconInv ledger e d rows (runReconciler upload tsOf ledger e d rows) := by
  have h := reconInv_run_aux upload tsOf ledger e d rows [] _ (reconInv_init ledger e d)
  simpa [runReconciler] using h

/-! ## Concrete fixtures used by witnesses and counterexamples -/

/-- A ledger row carrying only the columns `_load_prior_successes` reads. -/
def exRecord (qid fn outc : String) : ARecord :=
  { ts := ""
    legacy_txnid_norm := ""
    legacy_entity_type := ""
    raw_legacy_id := ""
    qbo_entity_type := ""
    qbo_entity_id := qid
    file_name := fn
    file_path := ""
    status_code := ""
    error := ""
    intuit_tid := ""
    outcome := outc }

/-- The ledger of the spec's idempotency-set example. -/
def exampleLedgerC2 : List ARecord :=
  [exRecord "1001" "f" "success", exRecord "1001" "f" "error", exRecord "1002" "g" "success"]

/-- A verified "ok" candidate row. -/
def okRow (qid fn : String) : VRow :=
  { legacy_txnid_norm := "ABC"
    legacy_entity_type := "Bill"
    raw_legacy_id := "80ABC"
    file_name := fn
    file_path := "files/x"
    qbo_entity_type := "Bill"
    qbo_entity_id := qid
    status := "ok"
    reason := "" }

/-- An upload oracle that always answers 200. -/
def upload0 : Nat → Resp :=
  fun _ => { status_code := 200, intuit_tid := some "tid", error := none, duration_ms := 1 }

/-- A fixed timestamp oracle. -/
def ts0 : Nat → String :=
  fun _ => "2026-01-01T00:00:00+00:00"

/-! ## Claim theorems -/

/-- C2: the idempotency set computed at startup is exactly the set of keys
    `(qbo_entity_id, file_name)` for which at least one ledger row has
    outcome `"success"`; on the ledger
    `[(1001,f,success), (1001,f,error), (1002,g,success)]` it is exactly
    `{(1001,f), (1002,g)}` of size 2 — a later non-success row never removes
    a key. -/
theorem idempotency_set_construction :
    (∀ (L : List ARecord) (k : String × String),
      k ∈ loadPriorSuccesses L ↔
        ∃ r ∈ L, r.outcome = "success" ∧ r.qbo_entity_id = k.1 ∧ r.file_name = k.2) ∧
    loadPriorSuccesses exampleLedgerC2 = {("1001", "f"), ("1002", "g")} ∧
    (loadPriorSuccesses exampleLedgerC2).card = 2 := by
  refine ⟨?_, by decide, by decide⟩
  intro L k
  rw [mem_loadPriorSuccesses]
  constructor
  · rintro ⟨r, hr, hs, hk⟩
    exact ⟨r, hr, hs, congrArg Prod.fst hk, congrArg Prod.snd hk⟩
  · rintro ⟨r, hr, hs, h1, h2⟩
    exact ⟨r, hr, hs, Prod.ext h1 h2⟩

/-- C3 counterexample: `normalize` is NOT idempotent.  On `"8080a"` the first
    application strips one `"80"` prefix and upper-cases, giving `"80A"`; the
    second application strips again, giving `"A"`. -/
theorem normalize_not_idempotent :
    normalize_legacy_id (some (normalize_legacy_id (some "8080a".toList))) ≠
      normalize_legacy_id (some "8080a".toList) := by
  decide

/-- C3 amended: `normalize(normalize(s)) = normalize(s)` holds for every
    string `s` whose normalized form is already stripped of surrounding
    whitespace and does not itself start with `"80"` (dropping the prefix can
    expose either; on such outputs a second application changes the value,
    as the counterexample shows). -/
theorem normalize_idempotent_amended (s : List Char)
    (htrim : pyStrip (normalize_legacy_id (some s)) = normalize_legacy_id (some s))
    (hpref : (normalize_legacy_id (some s)).take 2 ≠ ['8', '0']) :
    normalize_legacy_id (some (normalize_legacy_id (some s))) =
      normalize_legacy_id (some s) := by
  have hrep : normalize_legacy_id (some s) =
      pyUpper (if (pyStrip s).take 2 = ['8', '0'] then (pyStrip s).drop 2 else pyStrip s) := rfl
  show pyUpper (if (pyStrip (normalize_legacy_id (some s))).take 2 = ['8', '0']
      then (pyStrip (normalize_legacy_id (some s))).drop 2
      else pyStrip (normalize_legacy_id (some s))) = normalize_legacy_id (some s)
  rw [htrim, if_neg hpref]
  conv_lhs => rw [hrep, pyUpper_pyUpper]
  exact hrep.symm

/-- Witness for the amended C3, at `s = "80abc"`. -/
theorem normalize_idempotent_amended_witness :
    pyStrip (normalize_legacy_id (some "80abc".toList)) =
        normalize_legacy_id (some "80abc".toList) ∧
    (normalize_legacy_id (some "80abc".toList)).take 2 ≠ ['8', '0'] ∧
    normalize_legacy_id (some (normalize_legacy_id (some "80abc".toList))) =
      normalize_legacy_id (some "80abc".toList) :=
  ⟨by decide, by decide, normalize_idempotent_amended _ (by decide) (by decide)⟩

/-- C7: the normalizer contract — it agrees everywhere with the spec's §4.1
    description (`normalizeSpec`, written from the spec's words): `None` maps
    to the empty string, and a string is trimmed, has a leading literal
    `"80"` dropped, and is upper-cased; with the spec's concrete examples. -/
theorem normalizer_contract :
    (∀ r : Option (List Char), normalize_legacy_id r = normalizeSpec r) ∧
    normalize_legacy_id none = [] ∧
    (∀ s : List Char, normalize_legacy_id (some s) =
      pyUpper (if (pyStrip s).take 2 = ['8', '0'] then (pyStrip s).drop 2 else pyStrip s)) ∧
    normalize_legacy_id (some "80ABC123".toList) = "ABC123".toList ∧
    normalize_legacy_id (some "abc123".toList) = "ABC123".toList ∧
    normalize_legacy_id (some "   80xyz789  ".toList) = "XYZ789".toList := by
  refine ⟨?_, rfl, fun s => rfl, by decide, by decide, by decide⟩
  rintro (_ | s) <;> rfl

theorem mappingLookup_isSome_iff (ms : List MRow) (k : String × String) :
    (mappingLookup ms k).isSome ↔ ∃ m ∈ ms, mrowKey m = k := by
  rw [mappingLookup, List.find?_isSome]
  simp [List.mem_reverse]

theorem verifyRow_status_cases (ms : List MRow) (row : InvRow) :
    (verifyRow ms row).status = "ok" ∨ (verifyRow ms row).status = "missing_mapping" := by
  unfold verifyRow
  cases mappingLookup ms (row.legacy_txnid_norm, row.legacy_entity_type) with
  | some m => exact Or.inl rfl
  | none => exact Or.inr rfl

theorem verifier_count_split (ms : List MRow) (inv : List InvRow) :
    (inv.map (verifyRow ms)).countP (fun v => v.status == "ok") +
      (inv.map (verifyRow ms)).countP (fun v => v.status == "missing_mapping") =
        inv.length := by
  induction inv with
  | nil => rfl
  | cons r t ih =>
    simp only [List.map_cons, List.countP_cons, List.length_cons]
    rcases verifyRow_status_cases ms r with h | h <;>
      rw [h] <;> simp [List.countP_map] at ih ⊢ <;> omega

/-- C5: the verifier emits exactly one VerifiedRecord per attachment; the
    record's status is `"ok"` iff the attachment's key is in the mapping's
    key set, in which case `qbo_entity_type` / `qbo_entity_id` are copied
    from the matching (last-write-wins) mapping row, and otherwise the
    status is `"missing_mapping"` with empty target fields and a fixed
    reason string; the `ok` count plus the `missing_mapping` count equals
    the number of attachments. -/
theorem verifier_join (ms : List MRow) (inv : List InvRow)
    (priorLog : List VRow) (priorSkips : List SkipRow) :
    (verifierRun ms inv priorLog priorSkips).log.length = inv.length ∧
    (verifierRun ms inv priorLog priorSkips).log = inv.map (verifyRow ms) ∧
    (∀ row : InvRow,
      ((verifyRow ms row).status = "ok" ↔
        ∃ m ∈ ms, mrowKey m = (row.legacy_txnid_norm, row.legacy_entity_type))) ∧
    (∀ (row : InvRow) (m : MRow),
      mappingLookup ms (row.legacy_txnid_norm, row.legacy_entity_type) = some m →
        (verifyRow ms row).qbo_entity_type = m.qbo_entity_type ∧
        (verifyRow ms row).qbo_entity_id = m.qbo_entity_id ∧
        (verifyRow ms row).status = "ok" ∧ (verifyRow ms row).reason = "") ∧
    (∀ row : InvRow,
      mappingLookup ms (row.legacy_txnid_norm, row.legacy_entity_type) = none →
        (verifyRow ms row).status = "missing_mapping" ∧
        (verifyRow ms row).qbo_entity_type = "" ∧
        (verifyRow ms row).qbo_entity_id = "" ∧
        (verifyRow ms row).reason =
          "no mapping for (legacy_txnid_norm, legacy_entity_type)") ∧
    (verifierRun ms inv priorLog priorSkips).okCount +
      (verifierRun ms inv priorLog priorSkips).missingCount = inv.length := by
  refine ⟨List.length_map _ _, rfl, ?_, ?_, ?_, verifier_count_split ms inv⟩
  · intro row
    rw [← mappingLookup_isSome_iff]
    unfold verifyRow
    cases h : mappingLookup ms (row.legacy_txnid_norm, row.legacy_entity_type) with
    | some m => simp
    | none => simp
  · intro row m h
    unfold verifyRow
    rw [h]
    exact ⟨rfl, rfl, rfl, rfl⟩
  · intro row h
    unfold verifyRow
    rw [h]
    exact ⟨rfl, rfl, rfl, rfl⟩

/-- Witness for C5's hypothesis-bearing conjuncts, at a one-row mapping that
    matches and a key that does not. -/
theorem verifier_join_witness :
    ((verifyRow [⟨"ABC", "Bill", "Bill", "1001"⟩] ⟨"ABC", "Bill", "80ABC", "f", "p"⟩).qbo_entity_id
        = "1001" ∧
      (verifyRow [⟨"ABC", "Bill", "Bill", "1001"⟩] ⟨"ABC", "Bill", "80ABC", "f", "p"⟩).status
        = "ok") ∧
    ((verifyRow [⟨"ABC", "Bill", "Bill", "1001"⟩] ⟨"XYZ", "Bill", "80XYZ", "g", "q"⟩).status
        = "missing_mapping" ∧
      (verifyRow [⟨"ABC", "Bill", "Bill", "1001"⟩] ⟨"XYZ", "Bill", "80XYZ", "g", "q"⟩).reason
        = "no mapping for (legacy_txnid_norm, legacy_entity_type)") := by
  have h := verifier_join [⟨"ABC", "Bill", "Bill", "1001"⟩]
    [⟨"ABC", "Bill", "80ABC", "f", "p"⟩] [] []
  refine ⟨?_, ?_⟩
  · have hc := h.2.2.2.1 ⟨"ABC", "Bill", "80ABC", "f", "p"⟩ ⟨"ABC", "Bill", "Bill", "1001"⟩
      (by decide)
    exact ⟨hc.2.1, hc.2.2.1⟩
  · have hc := h.2.2.2.2.1 ⟨"XYZ", "Bill", "80XYZ", "g", "q"⟩ (by decide)
    exact ⟨hc.1, hc.2.2.2⟩

/-- C10: every run of the mapping verifier rewrites the skips file to a
    header-only file — the loop never produces a skip entry, and whatever the
    file held before the run is discarded by opening it with mode `"w"`. -/
theorem verifier_skips_always_empty (ms : List MRow) (inv : List InvRow)
    (priorLog : List VRow) (priorSkips : List SkipRow) :
    (verifierRun ms inv priorLog priorSkips).skips = [] ∧
    verifierRun ms inv priorLog priorSkips = verifierRun ms inv priorLog [] :=
  ⟨rfl, rfl⟩

/-- C8: a missing `mapping_verification_log.csv` aborts the run with an error
    before any ledger row is written, while a missing run log is read as an
    empty ledger (empty idempotency set) and the run proceeds normally. -/
theorem missing_input_behavior (upload : Nat → Resp) (tsOf : Nat → String) :
    (∀ runlogFile errFile dupFile : Option (List ARecord),
      mainReconciler upload tsOf none runlogFile errFile dupFile =
        Except.error "mapping_verification_log.csv not found; run mapping_verifier first") ∧
    (∀ (rows : List VRow) (errFile dupFile : Option (List ARecord)),
      mainReconciler upload tsOf (some rows) none errFile dupFile =
        mainReconciler upload tsOf (some rows) (some []) errFile dupFile ∧
      mainReconciler upload tsOf (some rows) none errFile dupFile =
        Except.ok (runReconciler upload tsOf [] (errFile.getD []) (dupFile.getD []) rows)) ∧
    loadPriorSuccesses [] = ∅ := by
  exact ⟨fun _ _ _ => rfl, fun _ _ _ => ⟨rfl, rfl⟩, rfl⟩

/-- C9: one reconciler run only appends: the main ledger after the run is the
    pre-existing contents followed by this run's records, and likewise for
    the errors-only and duplicates-only logs. -/
theorem ledger_append_only (upload : Nat → Resp) (tsOf : Nat → String)
    (ledger e d : List ARecord) (rows : List VRow) :
    (∃ app, (runReconciler upload tsOf ledger e d rows).runLog = ledger ++ app) ∧
    (∃ app, (runReconciler upload tsOf ledger e d rows).errLog = e ++ app) ∧
    (∃ app, (runReconciler upload tsOf ledger e d rows).dupLog = d ++ app) := by
  obtain ⟨h1, h2, h3, _, _, _, _, _, _⟩ := reconInv_run upload tsOf ledger e d rows
  exact ⟨h1, h2, h3⟩

/-- C1: at-most-once delivery.  At any point of a run (state reached after
    processing the earlier input rows `pre`), if the next verified "ok" row's
    idempotency key already has a `success` record — in the ledger from a
    prior run, or written earlier in this same run — then the reconciler
    emits a `skipped_already_uploaded` record with empty
    status_code/error/intuit_tid, appends it to the main ledger and to the
    duplicates-only log (and nothing else changes: in particular `calls`,
    the trace of external upload invocations, is untouched), and the run
    continues from that state. -/
theorem at_most_once (upload : Nat → Resp) (tsOf : Nat → String)
    (ledger e d : List ARecord) (pre : List VRow) (row : VRow)
    (hok : row.status = "ok")
    (hkey : (row.qbo_entity_id, row.file_name) ∈ loadPriorSuccesses ledger ∨
      ∃ r ∈ (runReconciler upload tsOf ledger e d pre).runLog.drop ledger.length,
        r.outcome = "success" ∧ r.qbo_entity_id = row.qbo_entity_id ∧
          r.file_name = row.file_name) :
    stepRow upload tsOf (runReconciler upload tsOf ledger e d pre) row =
      { runReconciler upload tsOf ledger e d pre with
        runLog := (runReconciler upload tsOf ledger e d pre).runLog ++
          [skipRecord (tsOf (runReconciler upload tsOf ledger e d pre).total) row]
        dupLog := (runReconciler upload tsOf ledger e d pre).dupLog ++
          [skipRecord (tsOf (runReconciler upload tsOf ledger e d pre).total) row]
        total := (runReconciler upload tsOf ledger e d pre).total + 1
        skipped := (runReconciler upload tsOf ledger e d pre).skipped + 1 } ∧
    (skipRecord (tsOf (runReconciler upload tsOf ledger e d pre).total) row).outcome =
      "skipped_already_uploaded" ∧
    (skipRecord (tsOf (runReconciler upload tsOf ledger e d pre).total) row).status_code = "" ∧
    (skipRecord (tsOf (runReconciler upload tsOf ledger e d pre).total) row).error = "" ∧
    (skipRecord (tsOf (runReconciler upload tsOf ledger e d pre).total) row).intuit_tid = "" ∧
    (stepRow upload tsOf (runReconciler upload tsOf ledger e d pre) row).calls =
      (runReconciler upload tsOf ledger e d pre).calls ∧
    (∀ rest : List VRow,
      runReconciler upload tsOf ledger e d (pre ++ row :: rest) =
        rest.foldl (stepRow upload tsOf)
          (stepRow upload tsOf (runReconciler upload tsOf ledger e d pre) row)) := by
  have inv := reconInv_run upload tsOf ledger e d pre
  have hin : (row.qbo_entity_id, row.file_name) ∈
      (runReconciler upload tsOf ledger e d pre).prior := by
    rw [inv.prior_char]
    simpa using hkey
  have hstep : stepRow upload tsOf (runReconciler upload tsOf ledger e d pre) row =
      { runReconciler upload tsOf ledger e d pre with
        runLog := (runReconciler upload tsOf ledger e d pre).runLog ++
          [skipRecord (tsOf (runReconciler upload tsOf ledger e d pre).total) row]
        dupLog := (runReconciler upload tsOf ledger e d pre).dupLog ++
          [skipRecord (tsOf (runReconciler upload tsOf ledger e d pre).total) row]
        total := (runReconciler upload tsOf ledger e d pre).total + 1
        skipped := (runReconciler upload tsOf ledger e d pre).skipped + 1 } := by
    unfold stepRow
    rw [if_pos hok]
    dsimp only
    rw [if_pos hin]
  refine ⟨hstep, rfl, rfl, rfl, rfl, by rw [hstep], ?_⟩
  intro rest
  rw [runReconciler, List.foldl_append, List.foldl_cons]
  rfl

/-- Witness for C1: a ledger already holding a success for key
    `("1001", "f")` makes the next "ok" candidate for that key a pure skip:
    no new upload invocation, and the emitted record is the skip record. -/
theorem at_most_once_witness :
    (stepRow upload0 ts0 (runReconciler upload0 ts0 [exRecord "1001" "f" "success"] [] [] [])
        (okRow "1001" "f")).calls =
      (runReconciler upload0 ts0 [exRecord "1001" "f" "success"] [] [] []).calls ∧
    (skipRecord (ts0 (runReconciler upload0 ts0 [exRecord "1001" "f" "success"] [] [] []).total)
        (okRow "1001" "f")).outcome = "skipped_already_uploaded" := by
  have h := at_most_once upload0 ts0 [exRecord "1001" "f" "success"] [] [] []
    (okRow "1001" "f") rfl (Or.inl (by decide))
  exact ⟨h.2.2.2.2.2.1, h.2.1⟩

/-- C4: for candidates that reach the upload operation, status 200 maps to
    outcome `success`, 404 to `file_missing`, anything else to `error`; every
    candidate's record (skip or attempt) is appended to the main ledger; and
    this run's errors-only appends are exactly this run's main-ledger appends
    that came from an upload attempt (outcome ≠ `skipped_already_uploaded`)
    and were not successful (`errPick`). -/
theorem outcome_mapping_and_error_log (upload : Nat → Resp) (tsOf : Nat → String)
    (ledger e d : List ARecord) (rows : List VRow) :
    outcomeOf 200 = "success" ∧
    outcomeOf 404 = "file_missing" ∧
    (∀ c : Int, c ≠ 200 → c ≠ 404 → outcomeOf c = "error") ∧
    (∀ (ts : String) (row : VRow) (resp : Resp),
      (attemptRecord ts row resp).outcome = outcomeOf resp.status_code) ∧
    (runReconciler upload tsOf ledger e d rows).runLog.length =
      ledger.length + (runReconciler upload tsOf ledger e d rows).total ∧
    (runReconciler upload tsOf ledger e d rows).errLog.drop e.length =
      ((runReconciler upload tsOf ledger e d rows).runLog.drop ledger.length).filter
        errPick := by
  have inv := reconInv_run upload tsOf ledger e d rows
  refine ⟨rfl, by decide, ?_, fun _ _ _ => rfl, inv.run_count, inv.err_filter⟩
  intro c h2 h4
  unfold outcomeOf
  rw [if_neg h2, if_neg h4]

/-- Witness for C4, with the non-200/404 branch taken at status 500. -/
theorem outcome_mapping_witness :
    outcomeOf 500 = "error" ∧
    (runReconciler upload0 ts0 [] [] [] []).errLog.drop (0 : Nat) =
      ((runReconciler upload0 ts0 [] [] [] []).runLog.drop (0 : Nat)).filter errPick := by
  have h := outcome_mapping_and_error_log upload0 ts0 [] [] [] []
  exact ⟨h.2.2.1 500 (by decide) (by decide), h.2.2.2.2.2⟩

/-- C6: failed work is reprocessed.  If every ledger row for a key has a
    non-success outcome and no earlier "ok" candidate of this run carried
    that key, then the next "ok" candidate with that key is NOT skipped: the
    external upload operation is invoked for it (a new entry appears in the
    call trace) and an attempt record is appended to the main ledger.  And
    within any single run each candidate triggers at most one upload call:
    the candidate indices of the call trace are strictly increasing. -/
theorem failed_work_reprocessed (upload : Nat → Resp) (tsOf : Nat → String)
    (ledger e d : List ARecord) (pre : List VRow) (row : VRow)
    (hok : row.status = "ok")
    (hfail : ∀ r ∈ ledger, r.qbo_entity_id = row.qbo_entity_id →
      r.file_name = row.file_name → r.outcome ≠ "success")
    (hfirst : ∀ v ∈ pre, v.status = "ok" →
      v.qbo_entity_id ≠ row.qbo_entity_id ∨ v.file_name ≠ row.file_name) :
    (stepRow upload tsOf (runReconciler upload tsOf ledger e d pre) row).calls =
      (runReconciler upload tsOf ledger e d pre).calls ++
        [((runReconciler upload tsOf ledger e d pre).total,
          row.qbo_entity_type, row.qbo_entity_id, row.file_path)] ∧
    (stepRow upload tsOf (runReconciler upload tsOf ledger e d pre) row).runLog =
      (runReconciler upload tsOf ledger e d pre).runLog ++
        [attemptRecord (tsOf (runReconciler upload tsOf ledger e d pre).total) row
          (upload (runReconciler upload tsOf ledger e d pre).total)] ∧
    (∀ rows : List VRow,
      ((runReconciler upload tsOf ledger e d rows).calls.map Prod.fst).Pairwise
        (· < ·)) := by
  have inv := reconInv_run upload tsOf ledger e d pre
  have hnot : (row.qbo_entity_id, row.file_name) ∉
      (runReconciler upload tsOf ledger e d pre).prior := by
    rw [inv.prior_char]
    rintro (hl | ⟨r, hr, hsucc, h1, h2⟩)
    · rw [mem_loadPriorSuccesses] at hl
      obtain ⟨r, hr, hsucc, hkk⟩ := hl
      exact hfail r hr (congrArg Prod.fst hkk) (congrArg Prod.snd hkk) hsucc
    · obtain ⟨v, hv, hvok, hv1, hv2⟩ := inv.app_rows r hr
      rcases hfirst v hv hvok with hne | hne
      · exact hne (hv1.symm.trans h1)
      · exact hne (hv2.symm.trans h2)
  have hstep :
      (stepRow upload tsOf (runReconciler upload tsOf ledger e d pre) row).calls =
        (runReconciler upload tsOf ledger e d pre).calls ++
          [((runReconciler upload tsOf ledger e d pre).total,
            row.qbo_entity_type, row.qbo_entity_id, row.file_path)] ∧
      (stepRow upload tsOf (runReconciler upload tsOf ledger e d pre) row).runLog =
        (runReconciler upload tsOf ledger e d pre).runLog ++
          [attemptRecord (tsOf (runReconciler upload tsOf ledger e d pre).total) row
            (upload (runReconciler upload tsOf ledger e d pre).total)] := by
    unfold stepRow
    rw [if_pos hok]
    dsimp only
    rw [if_neg hnot]
    by_cases h : (upload (runReconciler upload tsOf ledger e d pre).total).status_code = 200
    · rw [if_pos h]
      exact ⟨rfl, rfl⟩
    · rw [if_neg h]
      exact ⟨rfl, rfl⟩
  exact ⟨hstep.1, hstep.2,
    fun rows => (reconInv_run upload tsOf ledger e d rows).calls_sorted⟩

/-- Witness for C6: a ledger whose only row for key `("1001", "f")` is an
    `error` row does not suppress the next upload attempt for that key. -/
theorem failed_work_reprocessed_witness :
    (stepRow upload0 ts0 (runReconciler upload0 ts0 [exRecord "1001" "f" "error"] [] [] [])
        (okRow "1001" "f")).calls =
      (runReconciler upload0 ts0 [exRecord "1001" "f" "error"] [] [] []).calls ++
        [((runReconciler upload0 ts0 [exRecord "1001" "f" "error"] [] [] []).total,
          (okRow "1001" "f").qbo_entity_type, (okRow "1001" "f").qbo_entity_id,
          (okRow "1001" "f").file_path)] := by
  exact (failed_work_reprocessed upload0 ts0 [exRecord "1001" "f" "error"] [] [] []
    (okRow "1001" "f") rfl (by decide) (by decide)).1

end QboDemo
